import Mathlib

/-!
Shallow embedding of the course-traversal and completion-detection logic of
`weiban_spider.py` (class WeibanSpider and the module/lesson loops in `main`).
Strings are modelled as `List Char`, Python integers as `Int`, and each
fallible Python operation as an `Option`-valued function.  Every definition
cites the source lines it embeds.
-/

set_option autoImplicit false

namespace Weiban

/-- Whitespace characters recognised by Python `str.strip()` (ASCII subset). -/
def isPySpace (c : Char) : Bool :=
  decide (c = ' ') || decide (c = '\t') || decide (c = '\n') || decide (c = '\r') ||
    decide (c = '\x0b') || decide (c = '\x0c')

/-- Drop the leading characters that satisfy `p`. -/
def dropLeading (p : Char → Bool) : List Char → List Char
  | [] => []
  | c :: t => if p c then dropLeading p t else c :: t

/-- Python `str.strip()` as used on the progress text at line 382:
remove leading and trailing whitespace. -/
def pyStrip (cs : List Char) : List Char :=
  (dropLeading isPySpace (dropLeading isPySpace cs).reverse).reverse

/-- Whether character `c` occurs in `cs`; Python `c in s` for a single
character, as in the separator test `'/' in count_text` at line 383. -/
def hasChar (c : Char) : List Char → Bool
  | [] => false
  | d :: t => if d = c then true else hasChar c t

/-- Whether `needle` is an initial segment of `hay`. -/
def startsWith : List Char → List Char → Bool
  | _, [] => true
  | [], _ :: _ => false
  | a :: as, b :: bs => decide (a = b) && startsWith as bs

/-- Python substring containment `needle in hay` (for multi-character
needles, e.g. `'passed' in item_class` at line 457). -/
def containsSub (hay needle : List Char) : Bool :=
  match hay with
  | [] => needle.isEmpty
  | _ :: t => startsWith hay needle || containsSub t needle

/-- Python `str.split('/')` as used at line 384: split at every `'/'`,
keeping empty pieces. -/
def splitOnSlash : List Char → List (List Char)
  | [] => [[]]
  | c :: t =>
    if c = '/' then [] :: splitOnSlash t
    else
      match splitOnSlash t with
      | [] => [[c]]
      | h :: r => (c :: h) :: r

/-- Numeric value of a string of decimal digits. -/
def digitsVal (cs : List Char) : Nat :=
  cs.foldl (fun n c => 10 * n + (c.toNat - 48)) 0

/-- Python `int()` on an already-stripped string: an optional sign followed
by a nonempty run of decimal digits; anything else raises `ValueError`,
modelled as `none`.  (Underscore digit grouping and non-ASCII digits are
not modelled; no input in this development uses them.) -/
def pyIntCore (cs : List Char) : Option Int :=
  match cs with
  | [] => none
  | c :: t =>
    if c = '-' then
      if t ≠ [] ∧ t.all Char.isDigit then some (-(digitsVal t : Int)) else none
    else if c = '+' then
      if t ≠ [] ∧ t.all Char.isDigit then some ((digitsVal t : Int)) else none
    else if (c :: t).all Char.isDigit then some ((digitsVal (c :: t) : Int)) else none

/-- Python `int(s)` (lines 385-386): leading/trailing whitespace is ignored,
then an optional sign and digits are required. -/
def pyInt (cs : List Char) : Option Int :=
  pyIntCore (pyStrip cs)

/-- Lines 382-388: parse the module progress text.  The text is stripped;
if it contains `'/'` it is split at every `'/'` and the two pieces are
converted with `int()` — the tuple unpacking raises unless there are
exactly two pieces, and `int()` raises on a non-numeric piece (both
modelled as `none`); if there is no `'/'` the defensive default `(0, 0)`
is returned. -/
def parseProgress (cs : List Char) : Option (Int × Int) :=
  if hasChar '/' (pyStrip cs) then
    match splitOnSlash (pyStrip cs) with
    | [sa, sb] =>
      match pyInt sa, pyInt sb with
      | some a, some b => some (a, b)
      | _, _ => none
    | _ => none
  else some (0, 0)

/-- Python `str.split()` with no argument, used here only to give the
spec-side notion of the tokens of a class attribute: split at runs of
whitespace, returning the (nonempty) tokens.  `acc` is the current token,
reversed. -/
def splitWsAux : List Char → List Char → List (List Char)
  | [], acc => if acc.isEmpty then [] else [acc.reverse]
  | c :: t, acc =>
    if isPySpace c then
      if acc.isEmpty then splitWsAux t [] else acc.reverse :: splitWsAux t []
    else splitWsAux t (c :: acc)

/-- Tokens of a class attribute string (whitespace-separated words). -/
def classTokens (cs : List Char) : List (List Char) :=
  splitWsAux cs []

/-- The completion marker string tested at line 457. -/
def passedMarker : List Char := "passed".data

/-- A lesson element as observed in the DOM: just its `class` attribute
(`get_attribute` may return no value, hence the `Option`). -/
structure LessonView where
  itemClass : Option (List Char)
deriving DecidableEq

/-- Line 457: `is_passed = 'passed' in item_class if item_class else False`.
A missing or empty (falsy) attribute yields `false`; otherwise Python `in`
performs a substring test. -/
def is_passed (mClass : Option (List Char)) : Bool :=
  match mClass with
  | none => false
  | some cs => if cs.isEmpty then false else containsSub cs passedMarker

/-- Lines 450-465: scan the course items in order and return the first one
whose completion marker is not set, together with its 0-based position. -/
def findFirstUnpassed : List LessonView → Option (Nat × LessonView)
  | [] => none
  | l :: t =>
    if is_passed l.itemClass then
      (findFirstUnpassed t).map (fun p => (p.1 + 1, p.2))
    else some (0, l)

/-- What one iteration of the inner drain loop decides to do after the
scan: lines 467-470 leave the loop when no incomplete lesson remains,
otherwise the selected lesson is the one that is clicked (lines 474-506). -/
inductive DrainAct where
  | finish
  | runAt (i : Nat)
deriving DecidableEq

/-- The decision taken by one drain-loop iteration from the scanned items. -/
def drainSelect (items : List LessonView) : DrainAct :=
  match findFirstUnpassed items with
  | none => .finish
  | some (i, _) => .runAt i

/-- Positional lookup in a list (the Python indexing `modules[module_index]`
guarded by a length check). -/
def nth {α : Type} : List α → Nat → Option α
  | [], _ => none
  | a :: _, 0 => some a
  | _ :: t, n + 1 => nth t n

/-- A module as observed in the DOM at the start of an outer-loop
iteration: the text of its `.count` progress element (line 379 defaults it
to "0/0" when the element is missing, so the text is always available) and
the `.img-texts-item` course items found after expansion (line 410). -/
structure ModuleView where
  countText : List Char
  items : List LessonView
deriving DecidableEq

/-- Line 395: `if finished >= total and total > 0:` — the condition under
which a module is skipped as already complete. -/
def skipAsDone (finished total : Int) : Bool :=
  decide (total ≤ finished) && decide (0 < total)

/-- What one iteration of the outer module loop (lines 362-858) does to
`module_index`:
* `exit` — `module_index >= len(modules)`, line 367-369 breaks;
* `advance` — the module is skipped as done (lines 395-398), or its drain
  loop runs and line 850 increments, or an exception (e.g. the `int()`
  failure in progress parsing) reaches the handler at lines 852-858 which
  increments unconditionally;
* `stay` — the module is not skipped and its expanded item listing is
  empty: line 414 executes `continue` without touching `module_index`.
The inner lesson loop is abstracted as returning; the list passed in is
the listing observed by this iteration, so DOM mutation between iterations
is modelled by letting the caller vary it per step. -/
inductive IterAct where
  | exit
  | advance
  | stay
deriving DecidableEq

/-- One outer-loop iteration at index `i` over the observed listing `ms`. -/
def iterAct (ms : List ModuleView) (i : Nat) : IterAct :=
  match nth ms i with
  | none => .exit
  | some m =>
    match parseProgress m.countText with
    | none => .advance
    | some (f, t) =>
      if skipAsDone f t then .advance
      else if m.items.isEmpty then .stay
      else .advance

/-- The outer `while module_index < total_modules` loop (line 362; `total`
is `total_modules`, computed once at line 355).  `obs k` is the module
listing the page presents at iteration `k` (the code re-queries it each
time, line 365).  Returns the indices of the modules brought to a terminal
state, or `none` if the loop has not exited within `fuel` iterations. -/
def moduleLoop : Nat → Nat → Nat → (Nat → List ModuleView) → Nat → Option (List Nat)
  | 0, _, _, _, _ => none
  | fuel + 1, k, i, obs, total =>
    if i < total then
      match iterAct (obs k) i with
      | .exit => some []
      | .advance => (moduleLoop fuel (k + 1) (i + 1) obs total).map (fun v => i :: v)
      | .stay => moduleLoop fuel (k + 1) i obs total
    else some []

/-- Consecutive indices starting at `i`: the modules a terminating outer
loop visits. -/
def idxRange : Nat → Nat → List Nat
  | _, 0 => []
  | i, m + 1 => i :: idxRange (i + 1) m

/-- Python `str.lower()` (the ASCII case suffices for the URLs involved), used at
line 569 in `'/course/' in frame_url.lower()`. -/
def pyLower (cs : List Char) : List Char :=
  cs.map Char.toLower

/-- The content-hosting domain given top priority at line 552. -/
def mcwkDomain : List Char := "mcwk.mycourse.cn".data

/-- The main-platform domain excluded at line 565. -/
def weibanDomain : List Char := "weiban.mycourse.cn".data

/-- The path fragment tested at line 569. -/
def courseSeg : List Char := "/course/".data

/-- The blank-page sentinel excluded at lines 547, 561 and 579. -/
def blankUrl : List Char := "about:blank".data

/-- The script pseudo-URL scheme excluded at lines 547, 561 and 579. -/
def jsScheme : List Char := "javascript:".data

/-- Lines 547, 561: `if not frame_url or frame_url == 'about:blank' or
'javascript:' in frame_url: continue` — frames excluded from the first two
passes. -/
def excludedUrl (u : List Char) : Bool :=
  u.isEmpty || decide (u = blankUrl) || containsSub u jsScheme

/-- First pass, lines 544-555: a non-excluded frame on the
`mcwk.mycourse.cn` domain. -/
def contentFramePred (u : List Char) : Bool :=
  !excludedUrl u && containsSub u mcwkDomain

/-- Second pass, lines 558-572: a non-excluded frame not on the
`weiban.mycourse.cn` main domain whose lowercased URL contains
`/course/`. -/
def coursePathPred (u : List Char) : Bool :=
  !excludedUrl u && !containsSub u weibanDomain && containsSub (pyLower u) courseSeg

/-- Third pass, lines 575-582: any frame with a nonempty URL that differs
from the main page URL and is neither a script pseudo-URL nor the blank
sentinel. -/
def fallbackPred (pageUrl u : List Char) : Bool :=
  !u.isEmpty && decide (u ≠ pageUrl) && !containsSub u jsScheme && decide (u ≠ blankUrl)

/-- First element of `l` satisfying `p`, if any — each Python pass is a
`for` loop with `break` at the first hit. -/
def firstHit {α : Type} (p : α → Bool) : List α → Option α
  | [] => none
  | a :: t => if p a then some a else firstHit p t

/-- Lines 542-594: the frame resolver.  The three passes run in order and
the first that finds a frame wins; if all fail the caller falls back to
the main frame (line 592), reported here as `none`. -/
def resolveFrame (pageUrl : List Char) (frames : List (List Char)) : Option (List Char) :=
  match firstHit contentFramePred frames with
  | some f => some f
  | none =>
    match firstHit coursePathPred frames with
    | some f => some f
    | none => firstHit (fallbackPred pageUrl) frames

/-- The example frame-address list from the spec scenario. -/
def exampleFrames : List (List Char) :=
  ["about:blank".data, "https://cdn.example/x".data,
    "https://content.example/course/42".data]

/-- A main-page address for the spec scenario. -/
def examplePageUrl : List Char := "https://weiban.mycourse.cn/#/main".data

/-- Environment of one lesson run, recording which of the observable frame
conditions hold: the short-video ("wifi viewing") indicator (line 620),
the success of each of the four trigger-location strategies (lines
640-704), and the two polls for `finishWxCourse` (lines 711 and 719). -/
structure LessonEnv where
  wifiTip : Bool
  btnStart : Bool
  imgBtnStart : Bool
  priStartBtn : Bool
  genericStart : Bool
  finishFnFirst : Bool
  finishFnSecond : Bool
deriving DecidableEq

/-- The four trigger-location strategies of lines 640-704, in source
order: the `.btn-start` class selector (line 643), the
`img[src*="btn-start"]` image-source selector (line 669), the
`.pri-start-btn` secondary class selector (line 682), and the generic
`a[class*="start"], button[class*="start"]` selector (line 694). -/
inductive TriggerStrategy where
  | btnStartSel
  | imgSrcSel
  | priStartSel
  | genericSel
deriving DecidableEq

/-- The fixed order in which the strategies are coded. -/
def strategyOrder : List TriggerStrategy :=
  [.btnStartSel, .imgSrcSel, .priStartSel, .genericSel]

/-- Lines 630-704: the strategies actually attempted.  A video lesson
(wifi tip present, lines 632-635) attempts none; otherwise each strategy
runs only inside the `except` handler of the previous one, and the chain
stops at the first success. -/
def triggerAttempts (e : LessonEnv) : List TriggerStrategy :=
  if e.wifiTip then []
  else if e.btnStart then [.btnStartSel]
  else if e.imgBtnStart then [.btnStartSel, .imgSrcSel]
  else if e.priStartBtn then [.btnStartSel, .imgSrcSel, .priStartSel]
  else [.btnStartSel, .imgSrcSel, .priStartSel, .genericSel]

/-- Whether `finishWxCourse` is available after the poll of lines 711-721:
present at the first check, or — only when the first check failed — at the
re-check after the extra wait. -/
def funcReady (e : LessonEnv) : Bool :=
  e.finishFnFirst || e.finishFnSecond

/-- Observable interactions performed inside the content frame. -/
inductive FrameAct where
  | strategyTry (s : TriggerStrategy)
  | checkFinishFn
  | invokeFinishFn
deriving DecidableEq

/-- The frame interactions of one lesson run, lines 630-754: the attempted
trigger strategies, the `typeof finishWxCourse` check (line 711), the
re-check when the first failed (line 719), and the invocation when the
function is available (line 729). -/
def runActions (e : LessonEnv) : List FrameAct :=
  (triggerAttempts e).map .strategyTry
    ++ [.checkFinishFn]
    ++ (if e.finishFnFirst then [] else [.checkFinishFn])
    ++ (if funcReady e then [.invokeFinishFn] else [])

/-- One execution of the drain-loop body for a selected lesson.
`itemClickOk` is whether any of the three click methods of lines 474-506
succeeds (otherwise line 506 re-raises and the handler at line 831 takes
over); `frameEvalOk` is whether the unguarded frame evaluations at lines
711 and 719 succeed. -/
structure LessonRun where
  itemClickOk : Bool
  frameEvalOk : Bool
  env : LessonEnv
deriving DecidableEq

/-- Outcome of one drain-loop body: whether an exception reached the
handler at lines 831-839, whether `finishWxCourse()` was invoked
(line 729), and whether `completed_count` was incremented (line 828). -/
structure BodyResult where
  errored : Bool
  invoked : Bool
  counted : Bool
deriving DecidableEq

/-- Lines 474-839: run the drain-loop body for one selected lesson.  The
body errors only at the unguarded points (the lesson click of line 506 and
the frame evaluations of lines 711/719 — every other step sits inside its
own try/except); when it runs to the end, line 828 increments the counter
unconditionally, whether or not `finishWxCourse` was ever available. -/
def runBody (r : LessonRun) : BodyResult :=
  if !r.itemClickOk then ⟨true, false, false⟩
  else if !r.frameEvalOk then ⟨true, false, false⟩
  else ⟨false, funcReady r.env, true⟩

/-! ### Character and string lemmas -/

theorem space_not_digit {c : Char} (h : isPySpace c = true) : Char.isDigit c = false := by
  simp only [isPySpace, Bool.or_eq_true, decide_eq_true_eq] at h
  rcases h with ((((h | h) | h) | h) | h) | h <;> subst h <;> decide

theorem digit_not_space {c : Char} (h : Char.isDigit c = true) : isPySpace c = false := by
  cases hs : isPySpace c
  · rfl
  · rw [space_not_digit hs] at h
    exact absurd h (by decide)

theorem digit_ne {c : Char} (h : Char.isDigit c = true) :
    c ≠ '/' ∧ c ≠ '-' ∧ c ≠ '+' := by
  refine ⟨?_, ?_, ?_⟩ <;> intro hc <;> subst hc <;> exact absurd h (by decide)

theorem dropLeading_eq_self {p : Char → Bool} {l : List Char}
    (h : ∀ c ∈ l, p c = false) : dropLeading p l = l := by
  cases l with
  | nil => rfl
  | cons c t => simp [dropLeading, h c (by simp)]

theorem mem_dropLeading {p : Char → Bool} {c : Char} :
    ∀ {l : List Char}, c ∈ dropLeading p l → c ∈ l := by
  intro l
  induction l with
  | nil => intro h; exact h
  | cons d t ih =>
    intro h
    by_cases hd : p d = true
    · simp only [dropLeading, if_pos hd] at h
      exact List.mem_cons_of_mem d (ih h)
    · simp only [dropLeading, if_neg hd] at h
      exact h

theorem pyStrip_eq_self {l : List Char} (h : ∀ c ∈ l, isPySpace c = false) :
    pyStrip l = l := by
  unfold pyStrip
  rw [dropLeading_eq_self h]
  rw [dropLeading_eq_self (fun c hc => h c (List.mem_reverse.mp hc))]
  exact List.reverse_reverse l

theorem mem_pyStrip {c : Char} {l : List Char} (h : c ∈ pyStrip l) : c ∈ l := by
  unfold pyStrip at h
  rw [List.mem_reverse] at h
  have h2 := mem_dropLeading h
  rw [List.mem_reverse] at h2
  exact mem_dropLeading h2

theorem hasChar_append (c : Char) (xs ys : List Char) :
    hasChar c (xs ++ ys) = (hasChar c xs || hasChar c ys) := by
  induction xs with
  | nil => simp [hasChar]
  | cons d t ih =>
    by_cases hd : d = c
    · simp [hasChar, hd]
    · simp [hasChar, hd, ih]

theorem hasChar_eq_false {c : Char} {l : List Char} :
    hasChar c l = false ↔ ∀ d ∈ l, d ≠ c := by
  induction l with
  | nil => simp [hasChar]
  | cons d t ih =>
    by_cases hd : d = c
    · subst hd
      simp [hasChar]
    · simp [hasChar, hd, ih]

theorem splitOnSlash_noSlash {s : List Char} (h : ∀ c ∈ s, c ≠ '/') :
    splitOnSlash s = [s] := by
  induction s with
  | nil => rfl
  | cons c t ih =>
    have hc : ¬(c = '/') := h c (by simp)
    have ht := ih (fun d hd => h d (List.mem_cons_of_mem c hd))
    simp [splitOnSlash, hc, ht]

theorem splitOnSlash_append {s1 : List Char} (h : ∀ c ∈ s1, c ≠ '/') (l : List Char) :
    splitOnSlash (s1 ++ '/' :: l) = s1 :: splitOnSlash l := by
  induction s1 with
  | nil => simp [splitOnSlash]
  | cons c t ih =>
    have hc : ¬(c = '/') := h c (by simp)
    have ht := ih (fun d hd => h d (List.mem_cons_of_mem c hd))
    simp [splitOnSlash, hc, ht]

theorem all_digits_strip {s : List Char} (h : s.all Char.isDigit = true) :
    pyStrip s = s :=
  pyStrip_eq_self fun c hc => digit_not_space (List.all_eq_true.mp h c hc)

theorem pyInt_digits {s : List Char} (hne : s ≠ []) (h : s.all Char.isDigit = true) :
    pyInt s = some ((digitsVal s : Int)) := by
  unfold pyInt
  rw [all_digits_strip h]
  cases s with
  | nil => exact absurd rfl hne
  | cons c t =>
    have hc : Char.isDigit c = true := List.all_eq_true.mp h c (by simp)
    have h1 : ¬(c = '-') := (digit_ne hc).2.1
    have h2 : ¬(c = '+') := (digit_ne hc).2.2
    simp [pyIntCore, h1, h2, h]

/-! ### Claim theorems -/

/-- C6: for every progress string of the form "a/b" whose components are
(nonempty, decimal) integer numerals, the progress parser of lines 382-388
returns the pair (a, b); and for every string not containing the "/"
separator it returns the defensive default (0, 0) instead of raising. -/
theorem c6_parse_progress :
    (∀ s1 s2 : List Char, s1 ≠ [] → s2 ≠ [] →
      s1.all Char.isDigit = true → s2.all Char.isDigit = true →
      parseProgress (s1 ++ '/' :: s2) =
        some ((digitsVal s1 : Int), (digitsVal s2 : Int))) ∧
    (∀ cs : List Char, hasChar '/' cs = false → parseProgress cs = some (0, 0)) := by
  constructor
  · intro s1 s2 h1 h2 hd1 hd2
    have hall : ∀ c ∈ s1 ++ '/' :: s2, isPySpace c = false := by
      intro c hc
      rcases List.mem_append.mp hc with hm | hm
      · exact digit_not_space (List.all_eq_true.mp hd1 c hm)
      · rcases List.mem_cons.mp hm with rfl | hm
        · decide
        · exact digit_not_space (List.all_eq_true.mp hd2 c hm)
    have hstrip : pyStrip (s1 ++ '/' :: s2) = s1 ++ '/' :: s2 := pyStrip_eq_self hall
    have hslash : hasChar '/' (s1 ++ '/' :: s2) = true := by
      rw [hasChar_append]
      simp [hasChar]
    have hno1 : ∀ c ∈ s1, c ≠ '/' :=
      fun c hc => (digit_ne (List.all_eq_true.mp hd1 c hc)).1
    have hno2 : ∀ c ∈ s2, c ≠ '/' :=
      fun c hc => (digit_ne (List.all_eq_true.mp hd2 c hc)).1
    have hsplit : splitOnSlash (s1 ++ '/' :: s2) = [s1, s2] := by
      rw [splitOnSlash_append hno1, splitOnSlash_noSlash hno2]
    unfold parseProgress
    rw [hstrip, if_pos hslash, hsplit]
    simp only [pyInt_digits h1 hd1, pyInt_digits h2 hd2]
  · intro cs h
    have hs : hasChar '/' (pyStrip cs) = false := by
      rw [hasChar_eq_false] at h ⊢
      exact fun d hd => h d (mem_pyStrip hd)
    simp [parseProgress, hs]

/-- C6 witness: the theorem applied to the concrete progress strings
"1/2" (well-formed) and "abc" (separator absent). -/
theorem c6_parse_progress_witness :
    parseProgress ("1".data ++ '/' :: "2".data) = some (1, 2) ∧
    parseProgress ("abc".data) = some (0, 0) := by
  constructor
  · rw [c6_parse_progress.1 "1".data "2".data (by decide) (by decide)
      (by decide) (by decide)]
    decide
  · exact c6_parse_progress.2 "abc".data (by decide)

/-- C10: the (0, 0) defensive default applies only to strings with no "/"
at all.  Whenever the stripped text contains "/", the parser either
returns a genuinely parsed pair (exactly two pieces, both accepted by
`int()`) or raises (modelled `none`) — it never falls back to (0, 0); in
particular "1/2/3" (three pieces) and "a/b" (non-numeric pieces) raise.
And a parse exception reaches the module-level handler of lines 852-858,
which advances `module_index`, aborting only the current module
iteration. -/
theorem c10_parse_strictness :
    (∀ cs : List Char, hasChar '/' (pyStrip cs) = true →
      parseProgress cs = none ∨
        ∃ sa sb : List Char, ∃ a b : Int,
          splitOnSlash (pyStrip cs) = [sa, sb] ∧ pyInt sa = some a ∧
            pyInt sb = some b ∧ parseProgress cs = some (a, b)) ∧
    (parseProgress ("1/2/3".data) = none ∧ parseProgress ("a/b".data) = none) ∧
    (∀ (ms : List ModuleView) (i : Nat) (m : ModuleView), nth ms i = some m →
      parseProgress m.countText = none → iterAct ms i = .advance) := by
  refine ⟨?_, ⟨by decide, by decide⟩, ?_⟩
  · intro cs h
    unfold parseProgress
    rw [if_pos h]
    cases hl : splitOnSlash (pyStrip cs) with
    | nil => exact Or.inl rfl
    | cons sa r =>
      cases r with
      | nil => exact Or.inl rfl
      | cons sb r2 =>
        cases r2 with
        | cons c3 r3 => exact Or.inl rfl
        | nil =>
          cases ha : pyInt sa with
          | none =>
            refine Or.inl ?_
            simp [ha]
          | some a =>
            cases hb : pyInt sb with
            | none =>
              refine Or.inl ?_
              simp [ha, hb]
            | some b =>
              refine Or.inr ⟨sa, sb, a, b, rfl, ha, hb, ?_⟩
              simp [ha, hb]
  · intro ms i m hm hp
    simp only [iterAct, hm, hp]

/-- C10 witness: the theorem applied to the concrete malformed progress
texts "1/2/3" and "a/b". -/
theorem c10_parse_strictness_witness :
    (parseProgress ("1/2/3".data) = none ∨
      ∃ sa sb : List Char, ∃ a b : Int,
        splitOnSlash (pyStrip ("1/2/3".data)) = [sa, sb] ∧ pyInt sa = some a ∧
          pyInt sb = some b ∧ parseProgress ("1/2/3".data) = some (a, b)) ∧
    iterAct [⟨"a/b".data, []⟩] 0 = .advance :=
  ⟨c10_parse_strictness.1 ("1/2/3".data) (by decide),
    c10_parse_strictness.2.2 [⟨"a/b".data, []⟩] 0 ⟨"a/b".data, []⟩ (by decide) (by decide)⟩

/-- C1: the first conjunct confirms the classification for total > 0 —
line 395 skips a module as done exactly when finished ≥ total, so with
total > 0 it needs draining iff finished < total.  The second conjunct
evaluates the traversal at the failing input of the claim's other half: a
module whose progress pair reads total = 0 (text "0/0") is NOT skipped —
the skip condition requires total > 0 — and once its (empty) item listing
is queried, line 414 runs `continue` without advancing `module_index`, so
the iteration result is `stay`: the same module is re-entered forever
instead of being skipped. -/
theorem c1_total_zero_module :
    (∀ f t : Int, 0 < t → (skipAsDone f t = false ↔ f < t)) ∧
    iterAct [⟨"0/0".data, []⟩] 0 = .stay := by
  constructor
  · intro f t ht
    rcases lt_or_le f t with hlt | hle
    · have h1 : decide (t ≤ f) = false := decide_eq_false (not_le.mpr hlt)
      simp [skipAsDone, h1, hlt]
    · have h1 : decide (t ≤ f) = true := decide_eq_true hle
      have h2 : decide (0 < t) = true := decide_eq_true ht
      simp [skipAsDone, h1, h2, not_lt.mpr hle]
  · decide

/-- C1 witness: the classification applied at the concrete progress pair
(1, 2). -/
theorem c1_total_zero_module_witness :
    skipAsDone 1 2 = false ↔ (1 : Int) < 2 :=
  c1_total_zero_module.1 1 2 (by decide)

theorem mem_idxRange {j : Nat} : ∀ i m, j ∈ idxRange i m → i ≤ j ∧ j < i + m := by
  intro i m
  induction m generalizing i with
  | zero => intro h; cases h
  | succ m ih =>
    intro h
    rcases List.mem_cons.mp h with rfl | h
    · omega
    · have := ih (i + 1) h
      omega

theorem idxRange_nodup : ∀ i m, (idxRange i m).Nodup := by
  intro i m
  induction m generalizing i with
  | zero => exact List.nodup_nil
  | succ m ih =>
    refine List.nodup_cons.mpr ⟨?_, ih (i + 1)⟩
    intro h
    have := mem_idxRange (i + 1) m h
    omega

/-- When no iteration can hit the `stay` outcome, the outer loop starting
at index `i` exits within its fuel and visits exactly the consecutive
indices from `i` up to some point not beyond `total`. -/
theorem moduleLoop_no_stay (obs : Nat → List ModuleView) (total : Nat)
    (H : ∀ k i, iterAct (obs k) i ≠ .stay) :
    ∀ fuel k i, i ≤ total → total < i + fuel →
      ∃ m, i + m ≤ total ∧ moduleLoop fuel k i obs total = some (idxRange i m) := by
  intro fuel
  induction fuel with
  | zero => intro k i hle hlt; omega
  | succ fuel ih =>
    intro k i hle hlt
    by_cases hi : i < total
    · cases hact : iterAct (obs k) i with
      | stay => exact absurd hact (H k i)
      | exit =>
        refine ⟨0, by omega, ?_⟩
        simp [moduleLoop, hi, hact, idxRange]
      | advance =>
        obtain ⟨m, hm, heq⟩ := ih (k + 1) (i + 1) (by omega) (by omega)
        refine ⟨m + 1, by omega, ?_⟩
        simp [moduleLoop, hi, hact, heq, idxRange]
    · refine ⟨0, by omega, ?_⟩
      simp [moduleLoop, hi, idxRange]

/-- C4: the per-iteration discipline and its one exception, and the
consequence at the claim's failing input.  First conjunct: an outer-loop
iteration fails to advance (or exit) exactly when the current module
parses to a non-skippable progress pair and its expanded item listing is
empty — the `continue` at line 414 that skips `module_index += 1`.  Second
conjunct: whenever that case cannot occur, the loop terminates within
total + 1 iterations and the visited module indices are consecutive and
pairwise distinct (each module reaches its terminal handling exactly
once), as the claim describes.  Third conjunct: at a module list whose
only module is unfinished ("1/2") with an empty listing, the iteration
yields `stay` and the loop does not terminate within total + 1 iterations
— the claim's guarantee fails on the code. -/
theorem c4_traversal_termination :
    (∀ (ms : List ModuleView) (i : Nat),
      iterAct ms i = .stay ↔
        ∃ m, nth ms i = some m ∧
          (∃ p : Int × Int, parseProgress m.countText = some p ∧
            skipAsDone p.1 p.2 = false) ∧ m.items = []) ∧
    (∀ (obs : Nat → List ModuleView) (total : Nat),
      (∀ k i, iterAct (obs k) i ≠ .stay) →
      ∃ m, m ≤ total ∧
        moduleLoop (total + 1) 0 0 obs total = some (idxRange 0 m) ∧
        (idxRange 0 m).Nodup) ∧
    (iterAct [⟨"1/2".data, []⟩] 0 = .stay ∧
      moduleLoop 2 0 0 (fun _ => [⟨"1/2".data, []⟩]) 1 = none) := by
  refine ⟨?_, ?_, by decide, by decide⟩
  · intro ms i
    constructor
    · intro h
      cases hm : nth ms i with
      | none => simp [iterAct, hm] at h
      | some m =>
        cases hp : parseProgress m.countText with
        | none => simp [iterAct, hm, hp] at h
        | some p =>
          obtain ⟨f, t⟩ := p
          by_cases hs : skipAsDone f t = true
          · simp [iterAct, hm, hp, hs] at h
          · by_cases he : m.items.isEmpty = true
            · refine ⟨m, rfl, ⟨(f, t), hp, by simpa using hs⟩, ?_⟩
              simpa using he
            · simp [iterAct, hm, hp, hs, he] at h
    · rintro ⟨m, hm, ⟨⟨f, t⟩, hp, hs⟩, he⟩
      simp [iterAct, hm, hp, hs, he]
  · intro obs total H
    obtain ⟨m, hm, heq⟩ := moduleLoop_no_stay obs total H (total + 1) 0 0
      (Nat.zero_le total) (by omega)
    exact ⟨m, by omega, heq, idxRange_nodup 0 m⟩

/-- C4 witness: the termination discipline applied to a concrete one-module
list ("0/2" with a nonempty listing) on which no iteration can stay. -/
theorem c4_traversal_termination_witness :
    ∃ m, m ≤ 1 ∧
      moduleLoop 2 0 0 (fun _ => [⟨"0/2".data, [⟨none⟩]⟩]) 1 =
        some (idxRange 0 m) ∧ (idxRange 0 m).Nodup := by
  refine c4_traversal_termination.2.1 (fun _ => [⟨"0/2".data, [⟨none⟩]⟩]) 1 ?_
  intro k i
  show iterAct [⟨"0/2".data, [⟨none⟩]⟩] i ≠ IterAct.stay
  cases i with
  | zero => decide
  | succ n => simp [iterAct, nth]

/-- The scan of lines 455-465 selects the first unmarked lesson: it sits at
the reported position, its marker is unset, and every earlier lesson's
marker is set. -/
theorem findFirstUnpassed_spec :
    ∀ (items : List LessonView) (i : Nat) (l : LessonView),
      findFirstUnpassed items = some (i, l) →
        nth items i = some l ∧ is_passed l.itemClass = false ∧
          ∀ j, j < i → ∀ l', nth items j = some l' → is_passed l'.itemClass = true := by
  intro items
  induction items with
  | nil => intro i l h; cases h
  | cons a t ih =>
    intro i l h
    by_cases hp : is_passed a.itemClass = true
    · simp only [findFirstUnpassed, if_pos hp] at h
      cases hft : findFirstUnpassed t with
      | none => rw [hft] at h; cases h
      | some p =>
        obtain ⟨i0, l0⟩ := p
        rw [hft] at h
        simp only [Option.map_some', Option.some.injEq, Prod.mk.injEq] at h
        obtain ⟨hi, hl⟩ := h
        subst hi
        subst hl
        obtain ⟨h1, h2, h3⟩ := ih i0 l0 hft
        refine ⟨by simpa [nth] using h1, h2, ?_⟩
        intro j hj l' hl'
        cases j with
        | zero =>
          simp only [nth, Option.some.injEq] at hl'
          subst hl'
          exact hp
        | succ j0 =>
          exact h3 j0 (by omega) l' (by simpa [nth] using hl')
    · simp only [findFirstUnpassed, if_neg hp] at h
      simp only [Option.some.injEq, Prod.mk.injEq] at h
      obtain ⟨hi, hl⟩ := h
      subst hi
      subst hl
      refine ⟨rfl, by simpa using hp, ?_⟩
      intro j hj
      omega

/-- When the scan finds nothing, every lesson's marker is set (the drain
loop then breaks at lines 467-470). -/
theorem findFirstUnpassed_none :
    ∀ items : List LessonView, findFirstUnpassed items = none →
      ∀ l ∈ items, is_passed l.itemClass = true := by
  intro items
  induction items with
  | nil => intro _ l hl; cases hl
  | cons a t ih =>
    intro h l hl
    by_cases hp : is_passed a.itemClass = true
    · simp only [findFirstUnpassed, if_pos hp] at h
      cases hft : findFirstUnpassed t with
      | some p => rw [hft] at h; cases h
      | none =>
        rcases List.mem_cons.mp hl with rfl | hm
        · exact hp
        · exact ih hft l hm
    · simp only [findFirstUnpassed, if_neg hp] at h
      cases h

/-- C7: the drain loop never interacts with a lesson whose completion
marker is already set.  The scan of lines 455-465 selects the first lesson
whose marker is unset (every earlier lesson is marked); when no unmarked
lesson exists the loop breaks without any click (lines 467-470); and the
lesson the iteration clicks (lines 474-506) is exactly the selected one,
whose marker is unset. -/
theorem c7_skip_completed :
    (∀ (items : List LessonView) (i : Nat) (l : LessonView),
      findFirstUnpassed items = some (i, l) →
        nth items i = some l ∧ is_passed l.itemClass = false ∧
          ∀ j, j < i → ∀ l', nth items j = some l' → is_passed l'.itemClass = true) ∧
    (∀ items : List LessonView, findFirstUnpassed items = none →
      ∀ l ∈ items, is_passed l.itemClass = true) ∧
    (∀ (items : List LessonView) (i : Nat), drainSelect items = .runAt i →
      ∃ l, nth items i = some l ∧ is_passed l.itemClass = false) := by
  refine ⟨findFirstUnpassed_spec, findFirstUnpassed_none, ?_⟩
  intro items i h
  unfold drainSelect at h
  cases hf : findFirstUnpassed items with
  | none => rw [hf] at h; cases h
  | some p =>
    obtain ⟨i0, l0⟩ := p
    rw [hf] at h
    simp only [DrainAct.runAt.injEq] at h
    subst h
    obtain ⟨h1, h2, _⟩ := findFirstUnpassed_spec items i0 l0 hf
    exact ⟨l0, h1, h2⟩

/-- C7 witness: the scan applied to a concrete listing whose first two
lessons carry the marker. -/
theorem c7_skip_completed_witness :
    nth ([⟨some "item passed".data⟩, ⟨some "x passed y".data⟩,
        ⟨some "item".data⟩] : List LessonView) 2 = some ⟨some "item".data⟩ ∧
      is_passed (some "item".data) = false ∧
      ∀ j, j < 2 → ∀ l',
        nth ([⟨some "item passed".data⟩, ⟨some "x passed y".data⟩,
          ⟨some "item".data⟩] : List LessonView) j = some l' →
          is_passed l'.itemClass = true :=
  c7_skip_completed.1
    ([⟨some "item passed".data⟩, ⟨some "x passed y".data⟩,
      ⟨some "item".data⟩] : List LessonView)
    2 ⟨some "item".data⟩ (by decide)

theorem startsWith_append_self : ∀ x y : List Char, startsWith (x ++ y) x = true := by
  intro x
  induction x with
  | nil => intro y; cases y <;> rfl
  | cons a as ih => intro y; simp [startsWith, ih]

theorem containsSub_of_startsWith {hay needle : List Char}
    (h : startsWith hay needle = true) : containsSub hay needle = true := by
  cases hay with
  | nil =>
    cases needle with
    | nil => rfl
    | cons b bs => cases h
  | cons a t =>
    simp only [containsSub, Bool.or_eq_true]
    exact Or.inl h

theorem containsSub_append_left {y n : List Char} (h : containsSub y n = true) :
    ∀ x : List Char, containsSub (x ++ y) n = true := by
  intro x
  induction x with
  | nil => exact h
  | cons c t ih =>
    simp only [List.cons_append, containsSub, Bool.or_eq_true]
    exact Or.inr ih

theorem containsSub_self_append (x y : List Char) : containsSub (x ++ y) x = true :=
  containsSub_of_startsWith (startsWith_append_self x y)

theorem containsSub_cons {t n : List Char} (h : containsSub t n = true) (c : Char) :
    containsSub (c :: t) n = true := by
  simp only [containsSub, Bool.or_eq_true]
  exact Or.inr h

/-- Every token the whitespace split produces occurs as a substring of the
original string (with accumulator `acc` holding the reversed current
word). -/
theorem splitWsAux_tokens {t : List Char} :
    ∀ (l acc : List Char), t ∈ splitWsAux l acc →
      containsSub (acc.reverse ++ l) t = true := by
  intro l
  induction l with
  | nil =>
    intro acc h
    by_cases he : acc.isEmpty = true
    · simp only [splitWsAux, if_pos he] at h
      cases h
    · simp only [splitWsAux, if_neg he, List.mem_singleton] at h
      subst h
      exact containsSub_self_append acc.reverse []
  | cons c rest ih =>
    intro acc h
    by_cases hc : isPySpace c = true
    · simp only [splitWsAux, if_pos hc] at h
      by_cases he : acc.isEmpty = true
      · rw [if_pos he] at h
        have hr := ih [] h
        simp only [List.reverse_nil, List.nil_append] at hr
        exact containsSub_append_left (containsSub_cons hr c) acc.reverse
      · rw [if_neg he] at h
        rcases List.mem_cons.mp h with rfl | hm
        · exact containsSub_self_append acc.reverse (c :: rest)
        · have hr := ih [] hm
          simp only [List.reverse_nil, List.nil_append] at hr
          exact containsSub_append_left (containsSub_cons hr c) acc.reverse
    · simp only [splitWsAux, if_neg hc] at h
      have hr := ih (c :: acc) h
      rw [List.reverse_cons, List.append_assoc] at hr
      simpa using hr

/-- Every token of a class attribute is one of its substrings. -/
theorem classTokens_sub {t cs : List Char} (h : t ∈ classTokens cs) :
    containsSub cs t = true := by
  have := splitWsAux_tokens cs [] h
  simpa using this

/-- C2 (amended): line 457 tests `'passed' in item_class`, a substring
test, not a token test — the classifier returns true iff the class
attribute is present (truthy) and contains "passed" as a substring.  Every
attribute whose whitespace-separated tokens include "passed" is therefore
classified done, but so are attributes (such as "unpassed") whose tokens
do not include it; a missing attribute is classified not-done. -/
theorem c2_passed_marker :
    (∀ cs : List Char, passedMarker ∈ classTokens cs → is_passed (some cs) = true) ∧
    (∀ cs : List Char, is_passed (some cs) = containsSub cs passedMarker) ∧
    is_passed none = false := by
  have hsub : ∀ cs : List Char, is_passed (some cs) = containsSub cs passedMarker := by
    intro cs
    cases cs with
    | nil => decide
    | cons c t => simp [is_passed]
  refine ⟨?_, hsub, rfl⟩
  intro cs ht
  rw [hsub]
  exact classTokens_sub ht

/-- C2 counterexample: the class attribute "unpassed" has no token equal
to "passed", yet the classifier of line 457 reports the lesson as done —
the claim's token-membership characterisation is false on the code. -/
theorem c2_passed_marker_cex :
    is_passed (some ("unpassed".data)) = true ∧
      passedMarker ∉ classTokens ("unpassed".data) := by
  exact ⟨by decide, by decide⟩

/-- C2 witness: the amended theorem applied to the concrete attribute
"is passed", whose tokens do include the marker. -/
theorem c2_passed_marker_witness :
    is_passed (some ("is passed".data)) = true :=
  c2_passed_marker.1 ("is passed".data) (by decide)

theorem firstHit_pred {α : Type} {p : α → Bool} :
    ∀ {l : List α} {a : α}, firstHit p l = some a → p a = true ∧ a ∈ l := by
  intro l
  induction l with
  | nil => intro a h; cases h
  | cons x t ih =>
    intro a h
    by_cases hx : p x = true
    · simp only [firstHit, if_pos hx, Option.some.injEq] at h
      subst h
      exact ⟨hx, by simp⟩
    · simp only [firstHit, if_neg hx] at h
      obtain ⟨h1, h2⟩ := ih h
      exact ⟨h1, List.mem_cons_of_mem x h2⟩

theorem firstHit_none {α : Type} {p : α → Bool} :
    ∀ {l : List α}, (∀ x ∈ l, p x = false) → firstHit p l = none := by
  intro l
  induction l with
  | nil => intro _; rfl
  | cons x t ih =>
    intro h
    have hx : ¬(p x = true) := by simp [h x (by simp)]
    simp only [firstHit, if_neg hx]
    exact ih fun y hy => h y (List.mem_cons_of_mem x hy)

theorem firstHit_isSome {α : Type} {p : α → Bool} :
    ∀ {l : List α}, (∃ x ∈ l, p x = true) →
      ∃ a, firstHit p l = some a ∧ p a = true := by
  intro l
  induction l with
  | nil => rintro ⟨x, hx, _⟩; cases hx
  | cons y t ih =>
    rintro ⟨x, hx, hp⟩
    by_cases hy : p y = true
    · exact ⟨y, by simp [firstHit, hy], hy⟩
    · rcases List.mem_cons.mp hx with rfl | hm
      · exact absurd hp hy
      · obtain ⟨a, ha, hpa⟩ := ih ⟨x, hm, hp⟩
        exact ⟨a, by simp [firstHit, hy, ha], hpa⟩

theorem contentFramePred_props {u : List Char} (h : contentFramePred u = true) :
    excludedUrl u = false ∧ containsSub u mcwkDomain = true := by
  simp only [contentFramePred, Bool.and_eq_true, Bool.not_eq_true'] at h
  exact h

theorem coursePathPred_props {u : List Char} (h : coursePathPred u = true) :
    excludedUrl u = false ∧ containsSub u weibanDomain = false ∧
      containsSub (pyLower u) courseSeg = true := by
  simp only [coursePathPred, Bool.and_eq_true, Bool.not_eq_true'] at h
  exact ⟨h.1.1, h.1.2, h.2⟩

theorem fallbackPred_props {pu u : List Char} (h : fallbackPred pu u = true) :
    excludedUrl u = false ∧ u ≠ pu := by
  simp only [fallbackPred, Bool.and_eq_true, Bool.not_eq_true',
    decide_eq_true_eq] at h
  obtain ⟨⟨⟨h1, h2⟩, h3⟩, h4⟩ := h
  refine ⟨?_, h2⟩
  simp only [excludedUrl, Bool.or_eq_false_iff, decide_eq_false_iff_not]
  exact ⟨⟨h1, h4⟩, h3⟩

/-- C5: the frame resolver of lines 542-594 is a pure function of the
page URL and the ordered frame-address list, and it applies the strict
priorities the claim describes: a chosen frame is never an excluded one
(empty, "about:blank", or a "javascript:" pseudo-URL); when some
non-excluded frame is on the mcwk content domain the resolver picks a
content-domain frame; failing that, a non-main-domain frame whose
lowercased address contains "/course/"; failing that, a frame distinct
from the main page's address; and when no pass matches it reports none
(the caller then degrades to the main frame at line 592).  Finally, the
spec's concrete scenario resolves to the third frame. -/
theorem c5_frame_resolver :
    (∀ (u : List Char) (fs : List (List Char)) (f : List Char),
      resolveFrame u fs = some f → excludedUrl f = false) ∧
    (∀ (u : List Char) (fs : List (List Char)),
      (∃ f ∈ fs, contentFramePred f = true) →
      ∃ g, resolveFrame u fs = some g ∧ containsSub g mcwkDomain = true) ∧
    (∀ (u : List Char) (fs : List (List Char)),
      (∀ f ∈ fs, contentFramePred f = false) →
      (∃ f ∈ fs, coursePathPred f = true) →
      ∃ g, resolveFrame u fs = some g ∧
        containsSub (pyLower g) courseSeg = true ∧
        containsSub g weibanDomain = false) ∧
    (∀ (u : List Char) (fs : List (List Char)),
      (∀ f ∈ fs, contentFramePred f = false) →
      (∀ f ∈ fs, coursePathPred f = false) →
      (∃ f ∈ fs, fallbackPred u f = true) →
      ∃ g, resolveFrame u fs = some g ∧ g ≠ u ∧ excludedUrl g = false) ∧
    (∀ (u : List Char) (fs : List (List Char)),
      (∀ f ∈ fs, contentFramePred f = false) →
      (∀ f ∈ fs, coursePathPred f = false) →
      (∀ f ∈ fs, fallbackPred u f = false) →
      resolveFrame u fs = none) ∧
    resolveFrame examplePageUrl exampleFrames =
      some ("https://content.example/course/42".data) := by
  refine ⟨?_, ?_, ?_, ?_, ?_, by decide⟩
  · intro u fs f h
    unfold resolveFrame at h
    cases h1 : firstHit contentFramePred fs with
    | some g =>
      rw [h1, Option.some.injEq] at h
      subst h
      exact (contentFramePred_props (firstHit_pred h1).1).1
    | none =>
      rw [h1] at h
      cases h2 : firstHit coursePathPred fs with
      | some g =>
        rw [h2, Option.some.injEq] at h
        subst h
        exact (coursePathPred_props (firstHit_pred h2).1).1
      | none =>
        rw [h2] at h
        exact (fallbackPred_props (firstHit_pred h).1).1
  · intro u fs hex
    obtain ⟨g, hg, hpg⟩ := firstHit_isSome hex
    exact ⟨g, by simp [resolveFrame, hg], (contentFramePred_props hpg).2⟩
  · intro u fs hn hex
    have h1 : firstHit contentFramePred fs = none := firstHit_none hn
    obtain ⟨g, hg, hpg⟩ := firstHit_isSome hex
    exact ⟨g, by simp [resolveFrame, h1, hg],
      (coursePathPred_props hpg).2.2, (coursePathPred_props hpg).2.1⟩
  · intro u fs hn1 hn2 hex
    have h1 : firstHit contentFramePred fs = none := firstHit_none hn1
    have h2 : firstHit coursePathPred fs = none := firstHit_none hn2
    obtain ⟨g, hg, hpg⟩ := firstHit_isSome hex
    exact ⟨g, by simp [resolveFrame, h1, h2, hg],
      (fallbackPred_props hpg).2, (fallbackPred_props hpg).1⟩
  · intro u fs hn1 hn2 hn3
    have h1 : firstHit contentFramePred fs = none := firstHit_none hn1
    have h2 : firstHit coursePathPred fs = none := firstHit_none hn2
    have h3 : firstHit (fallbackPred u) fs = none := firstHit_none hn3
    simp [resolveFrame, h1, h2, h3]

/-- C5 witness: the domain-priority conjunct applied to a concrete frame
list containing an mcwk-domain frame after a blank placeholder. -/
theorem c5_frame_resolver_witness :
    ∃ g, resolveFrame examplePageUrl
        ["about:blank".data, "https://mcwk.mycourse.cn/a".data,
          "https://x.example/course/1".data] = some g ∧
      containsSub g mcwkDomain = true :=
  c5_frame_resolver.2.1 examplePageUrl
    ["about:blank".data, "https://mcwk.mycourse.cn/a".data,
      "https://x.example/course/1".data]
    ⟨"https://mcwk.mycourse.cn/a".data, by decide, by decide⟩

/-- C3 (amended): control returns to the caller in every case (the body is
a total function of its environment), and `completed_count` (line 828) is
incremented exactly when the body runs to its end without an uncaught
exception — regardless of whether `finishWxCourse` was invoked.  The
completion function is invoked exactly when the body does not error at the
unguarded points and the function was present at one of the two checks of
lines 711-721. -/
theorem c3_lesson_outcome :
    ∀ r : LessonRun,
      (runBody r).counted = !(runBody r).errored ∧
      (runBody r).invoked = (r.itemClickOk && r.frameEvalOk && funcReady r.env) := by
  intro r
  obtain ⟨c1, c2, e⟩ := r
  cases c1 <;> cases c2 <;> simp [runBody]

/-- C3 counterexample: a lesson whose body runs cleanly but in whose frame
`finishWxCourse` never appears (both checks fail) is still counted at
line 828 — so the per-run completed-lessons count does not only count
lessons whose completion function was invoked, refuting the claim as
stated. -/
theorem c3_lesson_outcome_cex :
    (runBody ⟨true, true, ⟨false, false, false, false, false, false, false⟩⟩).counted
        = true ∧
      (runBody ⟨true, true, ⟨false, false, false, false, false, false, false⟩⟩).invoked
        = false :=
  ⟨rfl, rfl⟩

/-- C3 witness: the amended theorem applied to a concrete run whose lesson
click fails. -/
theorem c3_lesson_outcome_witness :
    (runBody ⟨false, true, ⟨false, false, false, false, false, false, true⟩⟩).counted =
      !(runBody ⟨false, true, ⟨false, false, false, false, false, false, true⟩⟩).errored :=
  (c3_lesson_outcome ⟨false, true, ⟨false, false, false, false, false, false, true⟩⟩).1

/-- C8: a lesson whose resolved content frame shows the "wifi viewing"
indicator (line 620) is classified as a video course (lines 622-623) and
the runner skips the whole trigger-location block (lines 632-635): no
selector strategy is ever attempted, and the frame interactions begin
directly with the completion-function poll of line 711, followed by the
conditional re-check and, when the function appears, its invocation. -/
theorem c8_video_course :
    ∀ e : LessonEnv, e.wifiTip = true →
      triggerAttempts e = [] ∧
      (∀ s : TriggerStrategy, FrameAct.strategyTry s ∉ runActions e) ∧
      nth (runActions e) 0 = some FrameAct.checkFinishFn ∧
      runActions e = [FrameAct.checkFinishFn]
        ++ (if e.finishFnFirst then [] else [FrameAct.checkFinishFn])
        ++ (if funcReady e then [FrameAct.invokeFinishFn] else []) := by
  intro e hw
  have ht : triggerAttempts e = [] := by simp [triggerAttempts, hw]
  refine ⟨ht, ?_, ?_, by simp [runActions, ht]⟩
  · intro s hmem
    simp only [runActions, ht, List.map_nil, List.nil_append] at hmem
    by_cases h1 : e.finishFnFirst = true <;> by_cases h2 : funcReady e = true <;>
      simp [h1, h2] at hmem
  · simp [runActions, ht, nth]

/-- C8 witness: the theorem applied to a concrete video-lesson
environment. -/
theorem c8_video_course_witness :
    triggerAttempts ⟨true, false, false, false, false, false, false⟩ = [] ∧
      nth (runActions ⟨true, false, false, false, false, false, false⟩) 0 =
        some FrameAct.checkFinishFn :=
  ⟨(c8_video_course ⟨true, false, false, false, false, false, false⟩ rfl).1,
    (c8_video_course ⟨true, false, false, false, false, false, false⟩ rfl).2.2.1⟩

/-- C9: for an interactive lesson (no wifi indicator) the trigger-location
code of lines 640-704 tries the four strategies in their fixed source
order, as a prefix of that order: a later strategy appears among the
attempts only if every earlier one failed, a successful strategy ends the
chain, and when the first three fail and the generic one also finds
nothing all four have been attempted.  Whatever happens, the run proceeds:
the completion-function poll is still among the frame interactions, and a
body whose unguarded steps succeed does not error (so the drain loop goes
on to re-scan for the next incomplete lesson rather than aborting). -/
theorem c9_trigger_chain :
    ∀ e : LessonEnv, e.wifiTip = false →
      (∃ n, n ≤ 4 ∧ triggerAttempts e = strategyOrder.take n) ∧
      (TriggerStrategy.imgSrcSel ∈ triggerAttempts e → e.btnStart = false) ∧
      (TriggerStrategy.priStartSel ∈ triggerAttempts e →
        e.btnStart = false ∧ e.imgBtnStart = false) ∧
      (TriggerStrategy.genericSel ∈ triggerAttempts e →
        e.btnStart = false ∧ e.imgBtnStart = false ∧ e.priStartBtn = false) ∧
      (e.btnStart = true → triggerAttempts e = [.btnStartSel]) ∧
      (e.btnStart = false → e.imgBtnStart = true →
        triggerAttempts e = [.btnStartSel, .imgSrcSel]) ∧
      (e.btnStart = false → e.imgBtnStart = false → e.priStartBtn = true →
        triggerAttempts e = [.btnStartSel, .imgSrcSel, .priStartSel]) ∧
      (e.btnStart = false → e.imgBtnStart = false → e.priStartBtn = false →
        triggerAttempts e = strategyOrder) ∧
      FrameAct.checkFinishFn ∈ runActions e ∧
      (∀ ok1 ok2 : Bool, ok1 = true → ok2 = true →
        (runBody ⟨ok1, ok2, e⟩).errored = false) := by
  intro e hw
  refine ⟨?_, ?_, ?_, ?_, ?_, ?_, ?_, ?_, ?_, ?_⟩
  · by_cases h1 : e.btnStart = true
    · exact ⟨1, by omega, by simp [triggerAttempts, hw, h1, strategyOrder]⟩
    · by_cases h2 : e.imgBtnStart = true
      · exact ⟨2, by omega, by simp [triggerAttempts, hw, h1, h2, strategyOrder]⟩
      · by_cases h3 : e.priStartBtn = true
        · exact ⟨3, by omega, by simp [triggerAttempts, hw, h1, h2, h3, strategyOrder]⟩
        · exact ⟨4, by omega, by simp [triggerAttempts, hw, h1, h2, h3, strategyOrder]⟩
  · intro hmem
    by_cases h1 : e.btnStart = true
    · simp [triggerAttempts, hw, h1] at hmem
    · simpa using h1
  · intro hmem
    by_cases h1 : e.btnStart = true
    · simp [triggerAttempts, hw, h1] at hmem
    · by_cases h2 : e.imgBtnStart = true
      · simp [triggerAttempts, hw, h1, h2] at hmem
      · exact ⟨by simpa using h1, by simpa using h2⟩
  · intro hmem
    by_cases h1 : e.btnStart = true
    · simp [triggerAttempts, hw, h1] at hmem
    · by_cases h2 : e.imgBtnStart = true
      · simp [triggerAttempts, hw, h1, h2] at hmem
      · by_cases h3 : e.priStartBtn = true
        · simp [triggerAttempts, hw, h1, h2, h3] at hmem
        · exact ⟨by simpa using h1, by simpa using h2, by simpa using h3⟩
  · intro h1
    simp [triggerAttempts, hw, h1]
  · intro h1 h2
    simp [triggerAttempts, hw, h1, h2]
  · intro h1 h2 h3
    simp [triggerAttempts, hw, h1, h2, h3]
  · intro h1 h2 h3
    simp [triggerAttempts, hw, h1, h2, h3, strategyOrder]
  · simp [runActions]
  · intro ok1 ok2 h1 h2
    subst h1
    subst h2
    simp [runBody]

/-- C9 witness: the theorem applied to a concrete environment in which all
four strategies fail, showing all four were attempted and the body still
does not abort. -/
theorem c9_trigger_chain_witness :
    triggerAttempts ⟨false, false, false, false, false, false, false⟩ = strategyOrder ∧
      (runBody ⟨true, true, ⟨false, false, false, false, false, false, false⟩⟩).errored
        = false := by
  have h := c9_trigger_chain ⟨false, false, false, false, false, false, false⟩ rfl
  exact ⟨h.2.2.2.2.2.2.2.1 rfl rfl rfl, h.2.2.2.2.2.2.2.2.2 true true rfl rfl⟩

end Weiban
